import Mathlib

/-!
Shallow embedding of `src/request.rs` of the `glitch-in-the-matrix` crate:
the `MatrixRequest` type and its operations (`new_basic`, `new_with_body`,
the private `body()` helper, `make_hyper`, `send`, `discarding_send`).

Rust strings are handled by the source as UTF-8 byte sequences (in
particular `percent_encoding::utf8_percent_encode` works byte by byte), so
every string of the model is a list of bytes (`List Nat`, each element a
byte value).  External collaborators that the source leans on are modelled
explicitly where a claim depends on them and are documented at their
definition: `serde_json` serialisation, the `percent_encoding` crate's
`DEFAULT_ENCODE_SET`, hyper's `Uri` parser, and the `MatrixClient` handle.
-/

/-- A Rust string, viewed as its UTF-8 byte sequence. -/
abbrev Bytes := List Nat

deriving instance DecidableEq for Except

/-- The UTF-8 bytes of a string literal.  Every literal in this development
is ASCII, where the UTF-8 bytes coincide with the code points. -/
def strBytes (s : String) : Bytes :=
  s.data.map Char.toNat

/-- The two bytes of the serialised empty JSON object, `"{}"` (the text the
source compares the serialised body against on line 63 of `request.rs`). -/
def emptyObjectText : Bytes := [123, 125]

/-- The HTTP verbs of `hyper::Method` used by the source. -/
inductive Method where
  | options
  | get
  | post
  | put
  | delete
  | headVerb
  | traceVerb
  | connect
  | patch
deriving DecidableEq

/-- The error kinds of the crate's `errors` module that `make_hyper` can
produce (`MatrixResult` is `Result<_, MatrixError>`): a serialisation
failure carrying the serialiser's message, or a URL-parse failure. -/
inductive MatrixError where
  | serializationError (msg : Bytes)
  | urlParseError
deriving DecidableEq

/-- Modelled from the spec: hyper's parsed `Uri` (external to this
repository).  The model keeps the raw text the parser accepted. -/
structure Uri where
  raw : Bytes
deriving DecidableEq

/-- Modelled from the spec: validity test of hyper's `Uri` parser (external
to this repository).  Per section 4.3 and the section 8 scenario, a URL
string assembled from an empty or malformed base fails to parse; the model
accepts exactly the absolute `http://` / `https://` URLs. -/
def isValidUrl (s : Bytes) : Bool :=
  (strBytes "http://").isPrefixOf s || (strBytes "https://").isPrefixOf s

/-- Modelled from the spec: `url.parse::<hyper::Uri>()` (external to this
repository), returning the structured URL on success and nothing on a
parse failure. -/
def parseUri (s : Bytes) : Option Uri :=
  if isValidUrl s then some ⟨s⟩ else none

/-- A built `hyper::client::Request`: method and URI from `Request::new`,
and the optional body attached by `set_body`. -/
structure HyperRequest where
  meth : Method
  uri : Uri
  body : Option Bytes
deriving DecidableEq

/-- Modelled from the spec: the API-client handle (`MatrixClient`, defined
outside `src/`), which per section 6 exposes a base URL and an
authentication-token string.  Its two send operations are modelled by the
`SendOutcome` constructors recording the handed-over request. -/
structure MatrixClient where
  url : Bytes
  access_token : Bytes
deriving DecidableEq

/-- `percent_encoding::DEFAULT_ENCODE_SET` (the set the source passes to
`utf8_percent_encode` on lines 80-81): C0 controls, every byte above `~`,
and space `"` `#` `<` `>` `` ` `` `?` and the two curly-bracket bytes.
Notably `&` (38), `=` (61) and `%` (37) are not in the set. -/
def DEFAULT_ENCODE_SET (b : Nat) : Bool :=
  b < 32 || 126 < b || b = 32 || b = 34 || b = 35 || b = 60 ||
    b = 62 || b = 96 || b = 63 || b = 123 || b = 125

/-- The byte of the uppercase hexadecimal digit for `n` (`0`-`9`,`A`-`F`). -/
def hexDigitByte (n : Nat) : Nat :=
  if n < 10 then 48 + n else 55 + n

/-- Percent-escaping of one byte: a byte in the encode set becomes
`%XX` (uppercase hex), any other byte is passed through. -/
def encodeByte (b : Nat) : Bytes :=
  if DEFAULT_ENCODE_SET b then [37, hexDigitByte (b / 16), hexDigitByte (b % 16)]
  else [b]

/-- `percent_encoding::utf8_percent_encode(s, DEFAULT_ENCODE_SET).to_string()`:
each byte of the input is escaped independently. -/
def utf8_percent_encode : Bytes → Bytes
  | [] => []
  | b :: rest => encodeByte b ++ utf8_percent_encode rest

/-- `MatrixRequest<'a, T>` of `request.rs`: method, endpoint (without the
`/_matrix/client/r0` prefix), query parameters and a body of the generic
serialisable type `T`.  The `HashMap` of parameters is modelled by the
sequence of key/value pairs its unspecified iteration order yields, so every
theorem quantifying over `params` covers every iteration order. -/
structure MatrixRequest (T : Type) where
  meth : Method
  endpoint : Bytes
  params : List (Bytes × Bytes)
  body : T

/-- `MatrixRequest::new_basic(meth, endpoint)` (lines 34-41): empty
parameter map and unit body. -/
def MatrixRequest.new_basic (meth : Method) (endpoint : Bytes) : MatrixRequest Unit :=
  { meth := meth, endpoint := endpoint, params := [], body := () }

/-- One `HashMap::insert`: if the key is present its value is replaced,
otherwise the pair is added. -/
def mapInsert : List (Bytes × Bytes) → Bytes → Bytes → List (Bytes × Bytes)
  | [], k, v => [(k, v)]
  | p :: rest, k, v => if p.1 = k then (k, v) :: rest else p :: mapInsert rest k v

/-- `body.into_iter().map(..).collect::<HashMap<_, _>>()` (lines 49-50):
each pair is inserted in iteration order, so a later pair with the same key
overwrites an earlier one. -/
def collectHashMap (l : List (Bytes × Bytes)) : List (Bytes × Bytes) :=
  List.foldl (fun m kv => mapInsert m kv.1 kv.2) [] l

/-- `MatrixRequest::new_with_body(meth, endpoint, body)` (lines 44-57):
empty parameter map, body collected into a map from the given pairs (the
`Into<Cow<..>>` conversions are identities on the underlying text). -/
def MatrixRequest.new_with_body (meth : Method) (endpoint : Bytes)
    (body : List (Bytes × Bytes)) : MatrixRequest (List (Bytes × Bytes)) :=
  { meth := meth, endpoint := endpoint, params := [], body := collectHashMap body }

/-- Association-list lookup, the observation of a `HashMap`'s contents. -/
def mapFind : List (Bytes × Bytes) → Bytes → Option Bytes
  | [], _ => none
  | p :: rest, k => if p.1 = k then some p.2 else mapFind rest k

/-- The value of the last pair of `l` carrying key `k`, if any: the
"later entry wins" reading of collecting pairs into a map. -/
def lastWins : List (Bytes × Bytes) → Bytes → Option Bytes
  | [], _ => none
  | p :: t, k =>
    match lastWins t k with
    | some v => some v
    | none => if p.1 = k then some p.2 else none

/-- The private `MatrixRequest::body()` helper (lines 61-69): serialise the
body with `serde_json::to_string`; `Ok(None)` when the text is exactly
`"{}"`, `Ok(Some(text))` otherwise, and the serialiser's error (converted
to a `MatrixError`) when serialisation fails.  The serialiser for the
generic body type is the explicit argument `ser`. -/
def MatrixRequest.bodyText {T : Type} (ser : T → Except Bytes Bytes)
    (r : MatrixRequest T) : Except MatrixError (Option Bytes) :=
  match ser r.body with
  | .error e => .error (.serializationError e)
  | .ok body => .ok (if body = emptyObjectText then none else some body)

/-- The query string assembled on lines 77-82: `access_token=<token>` (the
token taken verbatim from the client), then `&<key>=<value>` for each
parameter in iteration order, key and value percent-encoded with
`DEFAULT_ENCODE_SET`. -/
def assembledQuery (access_token : Bytes) (params : List (Bytes × Bytes)) : Bytes :=
  List.foldl
    (fun acc kv => acc ++ (38 :: (utf8_percent_encode kv.1 ++ 61 :: utf8_percent_encode kv.2)))
    (strBytes "access_token=" ++ access_token) params

/-- `MatrixRequest::make_hyper(client)` (lines 75-92): serialise the body,
assemble `<base>/_matrix/client/r0<endpoint>?<query>`, parse it as a URI,
and build the request, attaching the body when present. -/
def make_hyper {T : Type} (ser : T → Except Bytes Bytes)
    (r : MatrixRequest T) (client : MatrixClient) : Except MatrixError HyperRequest :=
  match r.bodyText ser with
  | .error e => .error e
  | .ok body =>
    let params := assembledQuery client.access_token r.params
    let url := client.url ++ strBytes "/_matrix/client/r0" ++ r.endpoint ++ 63 :: params
    match parseUri url with
    | none => .error .urlParseError
    | some u => .ok { meth := r.meth, uri := u, body := body }

/-- What a send variant does, observably: either it returns the
already-failed future built from the `make_hyper` error without touching
the transport, or it hands the built request to the named operation of the
external `MatrixClient` (`send_request` for `send`,
`send_discarding_request` for `discarding_send`). -/
inductive SendOutcome where
  | failedFuture (e : MatrixError)
  | sentRequest (req : HyperRequest)
  | sentDiscardingRequest (req : HyperRequest)
deriving DecidableEq

/-- `MatrixRequest::send(mxc)` (lines 97-103): on a build failure an
immediately-failed future, otherwise the request goes to
`MatrixClient::send_request`. -/
def send {T : Type} (ser : T → Except Bytes Bytes)
    (r : MatrixRequest T) (mxc : MatrixClient) : SendOutcome :=
  match make_hyper ser r mxc with
  | .error e => .failedFuture e
  | .ok req => .sentRequest req

/-- `MatrixRequest::discarding_send(mxc)` (lines 105-111): on a build
failure an immediately-failed future, otherwise the request goes to
`MatrixClient::send_discarding_request`. -/
def discarding_send {T : Type} (ser : T → Except Bytes Bytes)
    (r : MatrixRequest T) (mxc : MatrixClient) : SendOutcome :=
  match make_hyper ser r mxc with
  | .error e => .failedFuture e
  | .ok req => .sentDiscardingRequest req

/-- Model of the external `serde_json` serialiser at the unit type:
`serde_json::to_string(&())` succeeds with the four-byte text `null`
(serde's `serialize_unit` emits a JSON null), not with `{}`.  The source's
own comment on lines 27-28 assumes the latter. -/
def serUnit : Unit → Except Bytes Bytes :=
  fun _ => .ok (strBytes "null")

/-- A serialiser that fails, as `serde_json::to_string` does for a body
value that is not representable as JSON text (spec section 4.2). -/
def serFailing : Unit → Except Bytes Bytes :=
  fun _ => .error (strBytes "body not representable")

/- Decoding of an assembled query string, used to state the recovery
property of spec section 8 ("set of decoded (key,value) pairs recovered
from the query string equals the original map"). -/

/-- Is `b` the byte of a hexadecimal digit (`0-9`, `A-F`, `a-f`)? -/
def isHexDigitByte (b : Nat) : Bool :=
  (48 ≤ b && b ≤ 57) || (65 ≤ b && b ≤ 70) || (97 ≤ b && b ≤ 102)

/-- The value of a hexadecimal digit byte. -/
def hexVal (b : Nat) : Nat :=
  if b ≤ 57 then b - 48 else if b ≤ 70 then b - 55 else b - 87

/-- Percent-decoding: each `%XX` escape with two hexadecimal digits becomes
the byte it denotes, every other byte (including a `%` not starting a valid
escape, together with the bytes after it) is passed through. -/
def percentDecode : Bytes → Bytes
  | [] => []
  | b :: rest =>
    if b = 37 then
      match rest with
      | h1 :: h2 :: rest2 =>
        if isHexDigitByte h1 && isHexDigitByte h2 then
          (hexVal h1 * 16 + hexVal h2) :: percentDecode rest2
        else b :: h1 :: h2 :: percentDecode rest2
      | [] => [b]
      | [x] => [b, x]
    else b :: percentDecode rest

/-- Split a byte sequence at every occurrence of the byte `sep`; the result
always has at least one (possibly empty) segment. -/
def splitOnByte (sep : Nat) : Bytes → List Bytes
  | [] => [[]]
  | b :: rest =>
    match splitOnByte sep rest with
    | [] => [[]]
    | s :: ss => if b = sep then [] :: s :: ss else (b :: s) :: ss

/-- Split a query-string entry at its first `=` byte into key and value
(the whole entry is the key when no `=` occurs). -/
def splitKV : Bytes → Bytes × Bytes
  | [] => ([], [])
  | b :: rest =>
    if b = 61 then ([], rest)
    else ((b :: (splitKV rest).1), (splitKV rest).2)

/-- Decode one `<key>=<value>` entry of a query string. -/
def decodeSeg (seg : Bytes) : Bytes × Bytes :=
  (percentDecode (splitKV seg).1, percentDecode (splitKV seg).2)

/-- The key/value pairs recovered from an assembled query string: split on
`&`, drop the first entry (the `access_token` one the source emits first)
and percent-decode each remaining entry. -/
def decodeQuery (q : Bytes) : List (Bytes × Bytes) :=
  match splitOnByte 38 q with
  | [] => []
  | _ :: segs => segs.map decodeSeg

/-- The encoded `<key>=<value>` text of one parameter as it appears in the
query string. -/
def encSeg (p : Bytes × Bytes) : Bytes :=
  utf8_percent_encode p.1 ++ 61 :: utf8_percent_encode p.2

/-- The concatenation of the `&<key>=<value>` fragments of a parameter
sequence, in order. -/
def pairsBlob : List (Bytes × Bytes) → Bytes
  | [] => []
  | p :: t => (38 :: encSeg p) ++ pairsBlob t

/- Concrete values for the spec's scenarios (section 8). -/

/-- The scenario client: base URL `https://example.org`, token `abc123`. -/
def exClient : MatrixClient :=
  { url := strBytes "https://example.org", access_token := strBytes "abc123" }

/-- The scenario spec: `new_basic(GET, "/sync")`. -/
def exSpec : MatrixRequest Unit :=
  MatrixRequest.new_basic Method.get (strBytes "/sync")

/-- The request `make_hyper` builds from `exSpec` against `exClient`. -/
def exHyper : HyperRequest :=
  { meth := Method.get
    uri := ⟨strBytes "https://example.org/_matrix/client/r0/sync?access_token=abc123"⟩
    body := some (strBytes "null") }

/-- The scenario client with an empty base URL (section 8, last scenario). -/
def emptyUrlClient : MatrixClient :=
  { url := [], access_token := strBytes "abc123" }

/- Helper lemmas. -/

theorem foldl_append_blob (ps : List (Bytes × Bytes)) :
    ∀ init : Bytes,
      List.foldl
        (fun acc kv =>
          acc ++ (38 :: (utf8_percent_encode kv.1 ++ 61 :: utf8_percent_encode kv.2)))
        init ps = init ++ pairsBlob ps := by
  induction ps with
  | nil => intro init; simp [pairsBlob]
  | cons p t ih =>
    intro init
    simp only [List.foldl_cons, ih, pairsBlob, encSeg, List.append_assoc]

theorem assembledQuery_eq (token : Bytes) (ps : List (Bytes × Bytes)) :
    assembledQuery token ps = (strBytes "access_token=" ++ token) ++ pairsBlob ps := by
  unfold assembledQuery
  exact foldl_append_blob ps _

theorem hexDigitByte_ne (n : Nat) :
    hexDigitByte n ≠ 37 ∧ hexDigitByte n ≠ 38 ∧ hexDigitByte n ≠ 61 := by
  unfold hexDigitByte
  split <;> omega

theorem notMem_utf8_percent_encode (c : Nat) (hc : c ≠ 37)
    (hhex : ∀ n, hexDigitByte n ≠ c) :
    ∀ s : Bytes, c ∉ s → c ∉ utf8_percent_encode s := by
  intro s
  induction s with
  | nil =>
    intro _ h
    rw [utf8_percent_encode] at h
    exact List.not_mem_nil c h
  | cons b t ih =>
    intro hs hmem
    rw [utf8_percent_encode, List.mem_append] at hmem
    rcases hmem with hmem | hmem
    · unfold encodeByte at hmem
      split at hmem
      · simp only [List.mem_cons, List.not_mem_nil, or_false] at hmem
        rcases hmem with h | h | h
        · exact hc h
        · exact hhex _ h.symm
        · exact hhex _ h.symm
      · simp only [List.mem_singleton] at hmem
        exact hs (hmem ▸ List.mem_cons_self b t)
    · exact ih (fun h => hs (List.mem_cons_of_mem b h)) hmem

theorem notMem_encSeg (p : Bytes × Bytes) (hk : 38 ∉ p.1) (hv : 38 ∉ p.2) :
    38 ∉ encSeg p := by
  intro hmem
  rw [encSeg, List.mem_append, List.mem_cons] at hmem
  rcases hmem with h | h | h
  · exact notMem_utf8_percent_encode 38 (by omega) (fun n => (hexDigitByte_ne n).2.1) _ hk h
  · omega
  · exact notMem_utf8_percent_encode 38 (by omega) (fun n => (hexDigitByte_ne n).2.1) _ hv h

theorem splitOnByte_ne_nil (sep : Nat) (l : Bytes) : splitOnByte sep l ≠ [] := by
  cases l with
  | nil => simp [splitOnByte]
  | cons b rest =>
    cases hsplit : splitOnByte sep rest with
    | nil => simp [splitOnByte, hsplit]
    | cons s ss =>
      simp only [splitOnByte, hsplit]
      by_cases hb : b = sep <;> simp [hb]

theorem splitOnByte_not_mem (sep : Nat) :
    ∀ a : Bytes, sep ∉ a → splitOnByte sep a = [a] := by
  intro a
  induction a with
  | nil => intro _; rfl
  | cons b t ih =>
    intro h
    have hb : b ≠ sep := fun hb => h (hb ▸ List.mem_cons_self b t)
    have ht : sep ∉ t := fun hm => h (List.mem_cons_of_mem b hm)
    simp [splitOnByte, ih ht, hb]

theorem splitOnByte_append (sep : Nat) :
    ∀ a b : Bytes, sep ∉ a →
      splitOnByte sep (a ++ sep :: b) = a :: splitOnByte sep b := by
  intro a
  induction a with
  | nil =>
    intro b _
    cases hsplit : splitOnByte sep b with
    | nil => exact absurd hsplit (splitOnByte_ne_nil sep b)
    | cons s ss => simp [splitOnByte, hsplit]
  | cons x t ih =>
    intro b h
    have hx : x ≠ sep := fun hx => h (hx ▸ List.mem_cons_self x t)
    have ht : sep ∉ t := fun hm => h (List.mem_cons_of_mem x hm)
    rw [List.cons_append, splitOnByte, ih b ht]
    simp [hx]

theorem splitKV_append :
    ∀ a b : Bytes, 61 ∉ a → splitKV (a ++ 61 :: b) = (a, b) := by
  intro a
  induction a with
  | nil =>
    intro b _
    simp [splitKV]
  | cons x t ih =>
    intro b h
    have hx : x ≠ 61 := fun hx => h (hx ▸ List.mem_cons_self x t)
    have ht : 61 ∉ t := fun hm => h (List.mem_cons_of_mem x hm)
    simp [splitKV, hx, ih b ht]

theorem isHexDigitByte_hexDigitByte (n : Nat) (h : n < 16) :
    isHexDigitByte (hexDigitByte n) = true := by
  unfold isHexDigitByte hexDigitByte
  split_ifs <;> simp <;> omega

theorem hexVal_hexDigitByte (n : Nat) (h : n < 16) :
    hexVal (hexDigitByte n) = n := by
  unfold hexVal hexDigitByte
  split_ifs <;> omega

theorem percentDecode_cons_ne (b : Nat) (rest : Bytes) (h : b ≠ 37) :
    percentDecode (b :: rest) = b :: percentDecode rest := by
  cases rest with
  | nil => simp [percentDecode, h]
  | cons x rest2 =>
    cases rest2 with
    | nil => simp [percentDecode, h]
    | cons y rest3 =>
      rw [percentDecode.eq_2]
      simp [h]

theorem percentDecode_encode (s : Bytes) (h256 : ∀ b ∈ s, b < 256) (h37 : 37 ∉ s) :
    percentDecode (utf8_percent_encode s) = s := by
  induction s with
  | nil => simp [utf8_percent_encode, percentDecode]
  | cons b t ih =>
    have hb : b < 256 := h256 b (List.mem_cons_self b t)
    have ht256 : ∀ x ∈ t, x < 256 := fun x hx => h256 x (List.mem_cons_of_mem b hx)
    have ht37 : 37 ∉ t := fun hm => h37 (List.mem_cons_of_mem b hm)
    have hb37 : b ≠ 37 := fun hb37 => h37 (hb37 ▸ List.mem_cons_self b t)
    rw [utf8_percent_encode, encodeByte]
    split
    · have hhi : isHexDigitByte (hexDigitByte (b / 16)) = true :=
        isHexDigitByte_hexDigitByte _ (by omega)
      have hlo : isHexDigitByte (hexDigitByte (b % 16)) = true :=
        isHexDigitByte_hexDigitByte _ (by omega)
      have hvhi : hexVal (hexDigitByte (b / 16)) = b / 16 :=
        hexVal_hexDigitByte _ (by omega)
      have hvlo : hexVal (hexDigitByte (b % 16)) = b % 16 :=
        hexVal_hexDigitByte _ (by omega)
      have hb' : b / 16 * 16 + b % 16 = b := by omega
      simp only [List.cons_append, List.nil_append, List.append_eq, percentDecode,
        if_pos rfl, hhi, hlo, Bool.and_self, if_pos, hvhi, hvlo, ih ht256 ht37, hb']
    · rw [List.singleton_append, percentDecode_cons_ne b _ hb37, ih ht256 ht37]

theorem splitOnByte_pairsBlob :
    ∀ (ps : List (Bytes × Bytes)) (first : Bytes), 38 ∉ first →
      (∀ p ∈ ps, 38 ∉ encSeg p) →
      splitOnByte 38 (first ++ pairsBlob ps) = first :: ps.map encSeg := by
  intro ps
  induction ps with
  | nil =>
    intro first hf _
    simp [pairsBlob, splitOnByte_not_mem 38 first hf]
  | cons p t ih =>
    intro first hf hp
    have hseg : 38 ∉ encSeg p := hp p (List.mem_cons_self p t)
    have ht : ∀ q ∈ t, 38 ∉ encSeg q := fun q hq => hp q (List.mem_cons_of_mem p hq)
    calc splitOnByte 38 (first ++ pairsBlob (p :: t))
        = splitOnByte 38 (first ++ 38 :: (encSeg p ++ pairsBlob t)) := by
          simp [pairsBlob]
      _ = first :: splitOnByte 38 (encSeg p ++ pairsBlob t) :=
          splitOnByte_append 38 first _ hf
      _ = first :: (encSeg p :: t.map encSeg) := by rw [ih (encSeg p) hseg ht]
      _ = first :: (p :: t).map encSeg := by simp

theorem decodeSeg_encSeg (p : Bytes × Bytes)
    (hk256 : ∀ b ∈ p.1, b < 256) (hk37 : 37 ∉ p.1) (hk61 : 61 ∉ p.1)
    (hv256 : ∀ b ∈ p.2, b < 256) (hv37 : 37 ∉ p.2) :
    decodeSeg (encSeg p) = p := by
  have h61 : 61 ∉ utf8_percent_encode p.1 :=
    notMem_utf8_percent_encode 61 (by omega) (fun n => (hexDigitByte_ne n).2.2) _ hk61
  rw [decodeSeg, encSeg, splitKV_append _ _ h61]
  rw [percentDecode_encode p.1 hk256 hk37, percentDecode_encode p.2 hv256 hv37]

theorem mapFind_mapInsert (m : List (Bytes × Bytes)) (k v k2 : Bytes) :
    mapFind (mapInsert m k v) k2 = if k = k2 then some v else mapFind m k2 := by
  induction m with
  | nil => simp [mapInsert, mapFind]
  | cons p t ih =>
    by_cases hp : p.1 = k
    · by_cases hk : k = k2
      · simp [mapInsert, hp, mapFind, hk]
      · have hpk2 : ¬(p.1 = k2) := fun h => hk (hp.symm.trans h)
        simp [mapInsert, hp, mapFind, hk, hpk2]
    · by_cases hpk2 : p.1 = k2
      · have hk : ¬(k = k2) := fun h => hp (hpk2.trans h.symm)
        have hk' : ¬(k2 = k) := fun h => hk h.symm
        simp [mapInsert, hp, mapFind, hpk2, hk, hk']
      · simp [mapInsert, hp, mapFind, hpk2, ih]

theorem mapFind_foldl_insert (l : List (Bytes × Bytes)) :
    ∀ (m : List (Bytes × Bytes)) (k : Bytes),
      mapFind (List.foldl (fun m kv => mapInsert m kv.1 kv.2) m l) k =
        match lastWins l k with
        | some v => some v
        | none => mapFind m k := by
  induction l with
  | nil => intro m k; rfl
  | cons p t ih =>
    intro m k
    rw [List.foldl_cons, ih, lastWins]
    rcases lastWins t k with - | v
    · simp only [mapFind_mapInsert]
      by_cases hp : p.1 = k
      · simp [hp]
      · simp [hp]
    · rfl

theorem mapFind_collectHashMap (l : List (Bytes × Bytes)) (k : Bytes) :
    mapFind (collectHashMap l) k = lastWins l k := by
  rw [collectHashMap, mapFind_foldl_insert]
  rcases lastWins l k with - | v <;> rfl

theorem pairsBlob_mem_split (p : Bytes × Bytes) :
    ∀ ps : List (Bytes × Bytes), p ∈ ps →
      ∃ l r, pairsBlob ps = l ++ (38 :: encSeg p) ++ r := by
  intro ps
  induction ps with
  | nil => intro h; exact absurd h (List.not_mem_nil p)
  | cons q t ih =>
    intro h
    rcases List.mem_cons.mp h with h | h
    · exact ⟨[], pairsBlob t, by simp [pairsBlob, h]⟩
    · obtain ⟨l, r, hlr⟩ := ih h
      exact ⟨38 :: encSeg q ++ l, r, by simp [pairsBlob, hlr]⟩

theorem parseUri_raw (s : Bytes) (u : Uri) (h : parseUri s = some u) : u.raw = s := by
  unfold parseUri at h
  split at h
  · simp only [Option.some.injEq] at h
    rw [← h]
  · cases h

theorem map_decodeSeg_encSeg (ps : List (Bytes × Bytes))
    (h : ∀ p ∈ ps, decodeSeg (encSeg p) = p) :
    (ps.map encSeg).map decodeSeg = ps := by
  induction ps with
  | nil => rfl
  | cons p t ih =>
    simp only [List.map_cons, h p (List.mem_cons_self p t)]
    rw [ih (fun q hq => h q (List.mem_cons_of_mem p hq))]

/- The claims. -/

/-- C1: for every body value, when `make_hyper` builds a request, if the
body's JSON serialisation is exactly the two-character text `{}` the built
request carries no body, and otherwise the built request's body bytes equal
the exact JSON serialisation of the body value. -/
theorem make_hyper_body_policy {T : Type} (ser : T → Except Bytes Bytes)
    (r : MatrixRequest T) (c : MatrixClient) (req : HyperRequest) (s : Bytes)
    (hser : ser r.body = .ok s)
    (hreq : make_hyper ser r c = .ok req) :
    (s = emptyObjectText → req.body = none) ∧
    (s ≠ emptyObjectText → req.body = some s) := by
  simp only [make_hyper, MatrixRequest.bodyText, hser] at hreq
  split at hreq
  · exact absurd hreq (by simp)
  · simp only [Except.ok.injEq] at hreq
    subst hreq
    constructor
    · intro hs
      simp [hs]
    · intro hs
      simp [hs]

/-- C1 witness: the unit body serialises to `null`, which is not `{}`, and
the request built in the section 8 scenario indeed carries `null` as its
body. -/
theorem make_hyper_body_policy_witness :
    strBytes "null" ≠ emptyObjectText ∧ exHyper.body = some (strBytes "null") :=
  ⟨by decide,
    (make_hyper_body_policy serUnit exSpec exClient exHyper (strBytes "null")
      rfl rfl).2 (by decide)⟩

/-- C2: evaluating the code at the failing input: for the spec produced by
`new_basic(GET, "/sync")` the body is `()`, which `serde_json` serialises
to `null` rather than `{}`, so `make_hyper` attaches the body `null` to the
built request — the claim (and the source's own comment on lines 26-28)
says such a request has no body. -/
theorem new_basic_unit_body_attached :
    make_hyper serUnit exSpec exClient = .ok exHyper ∧
    exHyper.body = some (strBytes "null") ∧
    exSpec.body = () :=
  ⟨rfl, rfl, rfl⟩

/-- C3: the assembled query string starts with `access_token=<token>` with
the token taken verbatim from the client handle, and for each parameter it
contains `&<percent-encoded key>=<percent-encoded value>` encoded with
`DEFAULT_ENCODE_SET`. -/
theorem assembledQuery_shape (token : Bytes) (ps : List (Bytes × Bytes)) :
    (∃ rest, assembledQuery token ps = (strBytes "access_token=" ++ token) ++ rest) ∧
    (∀ p ∈ ps, ∃ l r, assembledQuery token ps =
      l ++ (38 :: (utf8_percent_encode p.1 ++ 61 :: utf8_percent_encode p.2)) ++ r) := by
  constructor
  · exact ⟨pairsBlob ps, assembledQuery_eq token ps⟩
  · intro p hp
    obtain ⟨l, r, hlr⟩ := pairsBlob_mem_split p ps hp
    refine ⟨(strBytes "access_token=" ++ token) ++ l, r, ?_⟩
    rw [assembledQuery_eq token ps, hlr]
    simp [encSeg, List.append_assoc]

/-- C4: a request built by `make_hyper` carries exactly the URL
`<base><fixed prefix><endpoint>?<assembled query>`: the fixed prefix
`/_matrix/client/r0` appears once between base and endpoint, and the
endpoint is passed through unescaped. -/
theorem make_hyper_url_shape {T : Type} (ser : T → Except Bytes Bytes)
    (r : MatrixRequest T) (c : MatrixClient) (req : HyperRequest)
    (hreq : make_hyper ser r c = .ok req) :
    req.uri.raw = c.url ++ strBytes "/_matrix/client/r0" ++ r.endpoint ++
      63 :: assembledQuery c.access_token r.params := by
  simp only [make_hyper] at hreq
  split at hreq
  · exact absurd hreq (by simp)
  · split at hreq
    · exact absurd hreq (by simp)
    · next u hu =>
      simp only [Except.ok.injEq] at hreq
      rw [← hreq]
      exact parseUri_raw _ u hu

/-- C4 witness: in the section 8 scenario the built request's URL is
`https://example.org/_matrix/client/r0/sync?access_token=abc123`. -/
theorem make_hyper_url_shape_witness :
    exHyper.uri.raw = exClient.url ++ strBytes "/_matrix/client/r0" ++
      exSpec.endpoint ++ 63 :: assembledQuery exClient.access_token exSpec.params :=
  make_hyper_url_shape serUnit exSpec exClient exHyper rfl

/-- C5 counterexample: `DEFAULT_ENCODE_SET` leaves `&` and `=` unescaped,
so for the parameter map with entries `b ↦ c&a=1` and `a ↦ 1` (iterated in
that order, token `T`) the decoded entries of the query string are
`(b, c)`, `(a, 1)`, `(a, 1)`: a pair not in the map is recovered and the
pair `(a, 1)` appears twice, so the decoded set differs from the map. -/
theorem query_roundtrip_counterexample :
    (strBytes "b", strBytes "c") ∈
      decodeQuery (assembledQuery (strBytes "T")
        [(strBytes "b", strBytes "c&a=1"), (strBytes "a", strBytes "1")]) ∧
    (strBytes "b", strBytes "c") ∉
      [(strBytes "b", strBytes "c&a=1"), (strBytes "a", strBytes "1")] ∧
    (decodeQuery (assembledQuery (strBytes "T")
        [(strBytes "b", strBytes "c&a=1"), (strBytes "a", strBytes "1")])).count
      (strBytes "a", strBytes "1") = 2 := by
  decide

/-- C5 (amended): for every parameter map whose keys contain no `&`, `=` or
`%` byte and whose values contain no `&` or `%` byte, and every token free
of `&`, every key/value pair appears in the assembled query string exactly
once (percent-encoded), in any iteration order, and percent-decoding the
query string's entries other than the `access_token` one recovers exactly
the original map. -/
theorem query_roundtrip (token : Bytes) (ps : List (Bytes × Bytes))
    (htok : 38 ∉ token)
    (hp : ∀ p ∈ ps, (∀ b ∈ p.1, b < 256) ∧ 37 ∉ p.1 ∧ 38 ∉ p.1 ∧ 61 ∉ p.1 ∧
      (∀ b ∈ p.2, b < 256) ∧ 37 ∉ p.2 ∧ 38 ∉ p.2) :
    decodeQuery (assembledQuery token ps) = ps ∧
    (ps.Pairwise (fun p q => p.1 ≠ q.1) →
      (decodeQuery (assembledQuery token ps)).Nodup) := by
  have hfirst : 38 ∉ strBytes "access_token=" ++ token := by
    intro hmem
    rcases List.mem_append.mp hmem with h | h
    · revert h; decide
    · exact htok h
  have hsegs : ∀ p ∈ ps, 38 ∉ encSeg p := by
    intro p hpmem
    obtain ⟨-, -, hk38, -, -, -, hv38⟩ := hp p hpmem
    exact notMem_encSeg p hk38 hv38
  have hsplit : splitOnByte 38 (assembledQuery token ps) =
      (strBytes "access_token=" ++ token) :: ps.map encSeg := by
    rw [assembledQuery_eq]
    exact splitOnByte_pairsBlob ps _ hfirst hsegs
  have hdec : decodeQuery (assembledQuery token ps) = ps := by
    rw [decodeQuery, hsplit]
    refine map_decodeSeg_encSeg ps ?_
    intro p hpmem
    obtain ⟨hk256, hk37, -, hk61, hv256, hv37, -⟩ := hp p hpmem
    exact decodeSeg_encSeg p hk256 hk37 hk61 hv256 hv37
  refine ⟨hdec, fun hpw => ?_⟩
  rw [hdec]
  exact hpw.imp (fun h heq => h (congrArg Prod.fst heq))

/-- C5 witness: for the map `since ↦ s123` of the section 8 scenario and
token `abc123`, decoding the assembled query string recovers exactly the
map. -/
theorem query_roundtrip_witness :
    decodeQuery (assembledQuery (strBytes "abc123")
      [(strBytes "since", strBytes "s123")]) =
      [(strBytes "since", strBytes "s123")] :=
  (query_roundtrip (strBytes "abc123") [(strBytes "since", strBytes "s123")]
    (by decide) (by decide)).1

/-- C6: when `make_hyper` fails, both `send` and `discarding_send` return
the already-failed future carrying that error and nothing reaches the
transport; when it succeeds, `send` hands the built request to the client's
`send_request` and `discarding_send` to its `send_discarding_request`. -/
theorem send_dispatch {T : Type} (ser : T → Except Bytes Bytes)
    (r : MatrixRequest T) (mxc : MatrixClient) :
    (∀ e, make_hyper ser r mxc = .error e →
      send ser r mxc = .failedFuture e ∧
      discarding_send ser r mxc = .failedFuture e) ∧
    (∀ req, make_hyper ser r mxc = .ok req →
      send ser r mxc = .sentRequest req ∧
      discarding_send ser r mxc = .sentDiscardingRequest req) := by
  constructor
  · intro e he
    constructor
    · rw [send, he]
    · rw [discarding_send, he]
  · intro req hreq
    constructor
    · rw [send, hreq]
    · rw [discarding_send, hreq]

/-- C7 counterexample: for a body whose serialisation fails, sent against
the empty-base-URL client, the assembled URL string is not a valid URL and
yet `make_hyper` does not fail with the `UrlParseError`: the serialisation
error takes precedence, refuting "fails with a UrlParseError exactly when
the assembled URL string is not a syntactically valid URL". -/
theorem make_hyper_error_counterexample :
    parseUri (emptyUrlClient.url ++ strBytes "/_matrix/client/r0" ++
      exSpec.endpoint ++ 63 :: assembledQuery emptyUrlClient.access_token exSpec.params)
      = none ∧
    make_hyper serFailing exSpec emptyUrlClient =
      .error (.serializationError (strBytes "body not representable")) ∧
    ¬ make_hyper serFailing exSpec emptyUrlClient = .error .urlParseError := by
  refine ⟨rfl, rfl, by decide⟩

/-- C7 (amended): `make_hyper` fails with a `SerializationError` exactly
when the body serialisation fails (carrying its message), fails with a
`UrlParseError` exactly when the body serialises successfully and the
assembled URL string does not parse as a URL, and has no other failure:
every failure is an error value of one of these two forms. -/
theorem make_hyper_error_characterization {T : Type} (ser : T → Except Bytes Bytes)
    (r : MatrixRequest T) (c : MatrixClient) (e : MatrixError) :
    make_hyper ser r c = .error e ↔
      ((∃ msg, ser r.body = .error msg ∧ e = .serializationError msg) ∨
       ((∃ s, ser r.body = .ok s) ∧ e = .urlParseError ∧
        parseUri (c.url ++ strBytes "/_matrix/client/r0" ++ r.endpoint ++
          63 :: assembledQuery c.access_token r.params) = none)) := by
  constructor
  · intro h
    cases hs : ser r.body with
    | error msg =>
      simp only [make_hyper, MatrixRequest.bodyText, hs] at h
      simp only [Except.error.injEq] at h
      exact Or.inl ⟨msg, rfl, h.symm⟩
    | ok s =>
      simp only [make_hyper, MatrixRequest.bodyText, hs] at h
      split at h
      · next hp =>
        simp only [Except.error.injEq] at h
        exact Or.inr ⟨⟨s, rfl⟩, h.symm, hp⟩
      · exact absurd h (by simp)
  · intro h
    rcases h with ⟨msg, hs, he⟩ | ⟨⟨s, hs⟩, he, hp⟩
    · subst he
      simp only [make_hyper, MatrixRequest.bodyText, hs]
    · subst he
      simp only [make_hyper, MatrixRequest.bodyText, hs, hp]

/-- C8: with an empty client base URL and endpoint `/sync`, the assembled
URL does not parse, `make_hyper` fails with the `UrlParseError`, and both
send variants return the already-failed future without any transport
hand-off. -/
theorem empty_base_url_fails :
    make_hyper serUnit exSpec emptyUrlClient = .error .urlParseError ∧
    send serUnit exSpec emptyUrlClient = .failedFuture .urlParseError ∧
    discarding_send serUnit exSpec emptyUrlClient = .failedFuture .urlParseError :=
  ⟨rfl, rfl, rfl⟩

/-- C9: `new_basic` is a total function (it never fails) and for every
method and endpoint it produces the spec with that method and endpoint, an
empty parameter map and the unit body. -/
theorem new_basic_spec (m : Method) (endpoint : Bytes) :
    (MatrixRequest.new_basic m endpoint).params = [] ∧
    (MatrixRequest.new_basic m endpoint).body = () ∧
    (MatrixRequest.new_basic m endpoint).meth = m ∧
    (MatrixRequest.new_basic m endpoint).endpoint = endpoint :=
  ⟨rfl, rfl, rfl, rfl⟩

/-- C10: `new_with_body` produces a spec with an empty parameter map whose
body is the map formed from the given pairs: looking up any key yields the
value of the last pair of the input collection carrying that key. -/
theorem new_with_body_spec (m : Method) (endpoint : Bytes)
    (body : List (Bytes × Bytes)) :
    (MatrixRequest.new_with_body m endpoint body).params = [] ∧
    ∀ k, mapFind (MatrixRequest.new_with_body m endpoint body).body k = lastWins body k :=
  ⟨rfl, fun k => mapFind_collectHashMap body k⟩
